import Mathlib

/-!
Verification development for the real-time audio duplex engine in
`src/yui.py` (class `YuiRealtime`).

Modelling conventions for the shallow embedding:

* PCM samples are `Int` (the int16 values held in the numpy arrays).
* Python floats are modelled as exact rationals `ℚ`; float literals of the
  source (`0.015`, `1.8`, `0.2`) become the corresponding exact rationals,
  written with `mkRat` so that concrete instances reduce in the kernel.
* `rms_energy` and the per-range playback loudness are
  `sqrt(mean(x^2))` in the source; a square root has no exact rational
  value, so the loudness estimator is abstracted: capture-side loudness is
  an input `micRms` of each capture step (matching the spec's "a block at
  RMS r"), and the render callback is parametric in an estimator
  `rmsOf : List Int → ℚ` used for the playback-RMS EMA.  No claim depends
  on the numeric value produced by the estimator.
* The jitter buffer `queue.Queue` is a FIFO list (head = front of queue).
  The external session, the sounddevice streams and the playback tracker
  are external collaborators (spec §1/§6): `session.send_audio` is
  modelled by a `Bool` "this block was forwarded" per capture block, and
  `playback_tracker.on_play_bytes` has no effect on engine state.
* `_output_callback` becomes a function from engine state and output
  buffer size to the emitted samples plus the new state.  Its normal-path
  `while` loop is modelled with explicit fuel: the source loop spins
  forever if a zero-length frame is dequeued, and on exactly those inputs
  the model returns early instead; no claim concerns such inputs.
-/

unseal Rat.mul Rat.sub Rat.add Rat.inv

/-- `max` of two rationals as Python's builtin `max` computes it. -/
def ratMax (a b : ℚ) : ℚ := if a ≤ b then b else a

/-- `SAMPLE_RATE = 24000` (src/yui.py line 51). -/
def SAMPLE_RATE : ℕ := 24000

/-- `ENERGY_THRESHOLD = 0.015` (line 54). -/
def ENERGY_THRESHOLD : ℚ := mkRat 15 1000

/-- `PREBUFFER_CHUNKS = 3` (line 55). -/
def PREBUFFER_CHUNKS : ℕ := 3

/-- `FADE_OUT_MS = 12` (line 56). -/
def FADE_OUT_MS : ℕ := 12

/-- `BARGE_IN_FRAMES_REQUIRED = 4` (line 58). -/
def BARGE_IN_FRAMES_REQUIRED : ℕ := 4

/-- `ECHO_SUPPRESS_MULTIPLIER = 1.8` (line 59). -/
def ECHO_SUPPRESS_MULTIPLIER : ℚ := mkRat 9 5

/-- `self._playback_rms_alpha = 0.2` (line 115). -/
def playback_rms_alpha : ℚ := mkRat 1 5

/-- `self.fade_samples = int(SAMPLE_RATE * (FADE_OUT_MS / 1000.0))` (line 108);
`int(24000 * 0.012) = 288` (the float product is `288.000000…6`, truncated). -/
def fade_samples : ℕ := SAMPLE_RATE * FADE_OUT_MS / 1000

/-- A PCM frame as queued on `self.output_queue`:
`(samples_np, item_id, content_index)` (line 95). -/
structure AudioFrame where
  samples : List Int
  item_id : String
  content_index : ℕ
deriving DecidableEq, Repr

/-- `barge_in_mode` is `"server"` or `"rms"` (line 111). -/
inductive BargeInMode where
  | server
  | rms
deriving DecidableEq, Repr

/-- The mutable state of a `YuiRealtime` instance that the duplex engine
reads and writes (lines 96-116).  Device/session handles and the playback
tracker are external and carry no engine-visible state. -/
structure YuiState where
  output_queue : List AudioFrame
  interrupt_event : Bool
  current_audio_chunk : Option AudioFrame
  chunk_position : ℕ
  prebuffering : Bool
  prebuffer_target_chunks : ℕ
  fading : Bool
  fade_total_samples : ℕ
  fade_done_samples : ℕ
  recent_playback_rms : ℚ
  vad_active_frames : ℕ
  barge_in_mode : BargeInMode
deriving DecidableEq, Repr

/-- The state built by `YuiRealtime.__init__` (lines 86-116). -/
def initialState (mode : BargeInMode) : YuiState :=
  { output_queue := []
    interrupt_event := false
    current_audio_chunk := none
    chunk_position := 0
    prebuffering := true
    prebuffer_target_chunks := PREBUFFER_CHUNKS
    fading := false
    fade_total_samples := 0
    fade_done_samples := 0
    recent_playback_rms := 0
    vad_active_frames := 0
    barge_in_mode := mode }

/-- One EMA step of the playback-RMS tracker (lines 161-164 and 224-227):
`(1 - alpha) * old + alpha * play_rms`. -/
def emaUpdate (old x : ℚ) : ℚ :=
  (1 - playback_rms_alpha) * old + playback_rms_alpha * x

/-- numpy's float→int16 cast truncates toward zero. -/
def ratTrunc (q : ℚ) : Int := if 0 ≤ q then ⌊q⌋ else ⌈q⌉

/-- `np.clip(v, -32768.0, 32767.0)` followed by `.astype(np.int16)` (line 155). -/
def clip16 (q : ℚ) : Int :=
  ratTrunc (if q ≤ mkRat (-32768) 1 then mkRat (-32768) 1
            else if mkRat 32767 1 ≤ q then mkRat 32767 1 else q)

/-- The fade-out gain at global fade offset `k`:
`1.0 - idx / float(self.fade_total_samples)` (line 154), exact. -/
def fadeGain (total k : ℕ) : ℚ := 1 - mkRat k total

/-- One faded output sample: source sample scaled by the fade gain and
clipped to the 16-bit range (lines 150-155). -/
def fadedSample (src : Int) (total k : ℕ) : Int :=
  clip16 ((src : ℚ) * fadeGain total k)

/-- The ramped block `np.clip(src * gain, …)` emitted by one iteration of
the fade-out fill loop: `n` samples starting at frame offset `pos`, with
global fade offsets starting at `d0` (lines 150-156). -/
def fadeRamp (samples : List Int) (total pos d0 n : ℕ) : List Int :=
  (List.range n).map fun k => fadedSample (samples.getD (pos + k) 0) total (d0 + k)

/-- The fade-out fill `while` loop of `_output_callback` (lines 142-178).
Arguments mirror the loop variables: `filled = samples_filled`,
`pos = self.chunk_position`, `done = self.fade_done_samples`,
`rms = self.recent_playback_rms`.  Returns the emitted samples and the
final `pos`, `done`, `rms`. -/
def fadeLoop (rmsOf : List Int → ℚ) (samples : List Int) (total outLen : ℕ)
    (filled pos done : ℕ) (rms : ℚ) : List Int × ℕ × ℕ × ℚ :=
  if _h : filled < outLen ∧ done < total then
    let ramped := fadeRamp samples total pos done (min (outLen - filled) (total - done))
    let r := fadeLoop rmsOf samples total outLen
      (filled + min (outLen - filled) (total - done))
      (pos + min (outLen - filled) (total - done))
      (done + min (outLen - filled) (total - done))
      (emaUpdate rms (rmsOf ramped))
    (ramped ++ r.1, r.2)
  else
    ([], pos, done, rms)
termination_by outLen - filled
decreasing_by omega

/-- The normal-playback `while` loop of `_output_callback` (lines 196-243),
with explicit fuel.  Per iteration: if no current chunk, either stop during
pre-buffering below target, or clear `prebuffering` and dequeue (stopping if
the queue is empty); otherwise copy `min(remaining_output, remaining_chunk)`
samples, update the playback-RMS EMA over the copied range, and clear the
chunk once exhausted.  A zero-copy iteration with a chunk present spins
(the source loops forever there); fuel bounds the model. -/
def normalLoop (rmsOf : List Int → ℚ) : ℕ → YuiState → ℕ → ℕ → List Int × YuiState
  | 0, s, _, _ => ([], s)
  | fuel + 1, s, outLen, filled =>
    if filled < outLen then
      match s.current_audio_chunk with
      | none =>
        if s.prebuffering ∧ s.output_queue.length < s.prebuffer_target_chunks then
          ([], s)
        else
          match s.output_queue with
          | [] => ([], { s with prebuffering := false })
          | f :: rest =>
            normalLoop rmsOf fuel
              { s with prebuffering := false, current_audio_chunk := some f,
                       chunk_position := 0, output_queue := rest } outLen filled
      | some chunk =>
        let n := min (outLen - filled) (chunk.samples.length - s.chunk_position)
        if n = 0 then
          normalLoop rmsOf fuel s outLen filled
        else
          let data := (List.range n).map fun k => chunk.samples.getD (s.chunk_position + k) 0
          let s' :=
            if chunk.samples.length ≤ s.chunk_position + n then
              { s with current_audio_chunk := none, chunk_position := 0,
                       recent_playback_rms := emaUpdate s.recent_playback_rms (rmsOf data) }
            else
              { s with chunk_position := s.chunk_position + n,
                       recent_playback_rms := emaUpdate s.recent_playback_rms (rmsOf data) }
          let r := normalLoop rmsOf fuel s' outLen (filled + n)
          (data ++ r.1, r.2)
    else
      ([], s)

/-- `YuiRealtime._output_callback` (lines 118-243).  `outLen` is the size of
the output buffer (`len(outdata)`); the returned list is the buffer content
(the buffer is zero-filled first, so the copied prefix is padded with
zeros).  `fadeLen` is `self.fade_samples`, kept as a parameter so claims
about "any configured fade length" can quantify over it. -/
def outputCallback (rmsOf : List Int → ℚ) (fadeLen : ℕ) (s : YuiState)
    (outLen : ℕ) : List Int × YuiState :=
  if s.interrupt_event then
    match s.current_audio_chunk with
    | none =>
      (List.replicate outLen 0,
       { s with output_queue := [], prebuffering := true, interrupt_event := false })
    | some chunk =>
      let total := if s.fading then s.fade_total_samples
                   else min fadeLen (chunk.samples.length - s.chunk_position)
      let d0 := if s.fading then s.fade_done_samples else 0
      let r := fadeLoop rmsOf chunk.samples total outLen 0 s.chunk_position d0
        s.recent_playback_rms
      let emitted := r.1 ++ List.replicate (outLen - r.1.length) 0
      if total ≤ r.2.2.1 then
        (emitted,
         { s with current_audio_chunk := none, chunk_position := 0,
                  output_queue := [], fading := false, prebuffering := true,
                  interrupt_event := false, fade_total_samples := total,
                  fade_done_samples := r.2.2.1, recent_playback_rms := r.2.2.2 })
      else
        (emitted,
         { s with fading := true, chunk_position := r.2.1,
                  fade_total_samples := total, fade_done_samples := r.2.2.1,
                  recent_playback_rms := r.2.2.2 })
  else
    let r := normalLoop rmsOf (outLen + s.output_queue.length + 2) s outLen 0
    (r.1 ++ List.replicate (outLen - r.1.length) 0, r.2)

/-- `assistant_playing` (lines 319-321): a chunk is being drained or the
queue is non-empty. -/
def assistant_playing (s : YuiState) : Bool :=
  s.current_audio_chunk.isSome || !s.output_queue.isEmpty

/-- The dynamic guard threshold of local barge-in (line 331):
`max(ENERGY_THRESHOLD, self.recent_playback_rms * ECHO_SUPPRESS_MULTIPLIER)`. -/
def playback_guard (s : YuiState) : ℚ :=
  ratMax ENERGY_THRESHOLD (s.recent_playback_rms * ECHO_SUPPRESS_MULTIPLIER)

/-- One block of `YuiRealtime.capture_audio` (lines 311-343), given the
block's RMS loudness.  Returns the new state and whether the block was
forwarded to `self.session.send_audio`. -/
def captureStep (s : YuiState) (micRms : ℚ) : YuiState × Bool :=
  match s.barge_in_mode with
  | .server => ({ s with vad_active_frames := 0 }, true)
  | .rms =>
    if assistant_playing s then
      if playback_guard s ≤ micRms then
        if BARGE_IN_FRAMES_REQUIRED ≤ s.vad_active_frames + 1 then
          ({ s with vad_active_frames := s.vad_active_frames + 1,
                    interrupt_event := true }, true)
        else
          ({ s with vad_active_frames := s.vad_active_frames + 1 }, false)
      else
        ({ s with vad_active_frames := 0 }, false)
    else
      ({ s with vad_active_frames := 0 }, true)

/-- A run of consecutive capture blocks, each given by its RMS loudness.
Returns the final state and, per block in order, whether it was sent. -/
def captureRun (s : YuiState) : List ℚ → YuiState × List Bool
  | [] => (s, [])
  | b :: bs =>
    let st := captureStep s b
    let rest := captureRun st.1 bs
    (rest.1, st.2 :: rest.2)

/-- The inbound session events as dispatched by `YuiRealtime._on_event`
(lines 352-382).  `audio` carries the decoded PCM frame; `malformed_audio`
is an audio event whose payload makes `np.frombuffer` (or any other part of
the handler) raise — the exception is caught by the handler's
`try/except`. -/
inductive SessionEvent where
  | agent_start
  | agent_end
  | handoff
  | tool_start
  | tool_end
  | audio_end
  | audio (frame : AudioFrame)
  | malformed_audio
  | audio_interrupted
  | error_event
  | history_updated
  | history_added
  | raw_model_event
  | unknown
deriving DecidableEq, Repr

/-- `YuiRealtime._on_event` (lines 352-382): `audio` enqueues one frame,
`audio_interrupted` re-arms pre-buffering and sets the latch, everything
else (including a raising handler, whose exception is caught and reported)
leaves the engine state unchanged. -/
def onEvent (s : YuiState) (e : SessionEvent) : YuiState :=
  match e with
  | .audio f => { s with output_queue := s.output_queue ++ [f] }
  | .audio_interrupted => { s with prebuffering := true, interrupt_event := true }
  | _ => s

/-- The dispatch loop `async for event in session: await self._on_event(event)`
(lines 279-280), over a finite prefix of the event stream. -/
def dispatchEvents (s : YuiState) (es : List SessionEvent) : YuiState :=
  es.foldl onEvent s

/-- One scheduling step of the three concurrent schedules, as interleaved
by the runtime: a render callback of a given buffer size, one inbound
event, or one capture block. -/
inductive EngineOp where
  | render (outLen : ℕ)
  | inbound (e : SessionEvent)
  | capture (micRms : ℚ)

/-- Apply one engine step to the state. -/
def applyOp (rmsOf : List Int → ℚ) (s : YuiState) : EngineOp → YuiState
  | .render outLen => (outputCallback rmsOf fade_samples s outLen).2
  | .inbound e => onEvent s e
  | .capture r => (captureStep s r).1

/-- Run a finite interleaving of engine steps. -/
def runOps (rmsOf : List Int → ℚ) (s : YuiState) (ops : List EngineOp) : YuiState :=
  ops.foldl (applyOp rmsOf) s

/-- Steps that only enqueue frames or invoke the render callback — the
closed system of claim C2's "for any sequence of enqueued frames". -/
def isQueueOrRenderOp : EngineOp → Bool
  | .render _ => true
  | .inbound (.audio _) => true
  | _ => false

/-- `qs` contains `m` consecutive `true` entries (spec-side formulation of
"`m` consecutive qualifying blocks"). -/
def hasConsecutiveRun (m : ℕ) (qs : List Bool) : Prop :=
  ∃ i, ∀ j, j < m → qs[i + j]? = some true

/-- The counter automaton of local barge-in, extracted for reasoning:
final value of `vad_active_frames` from start value `c` over the
qualifying-flags of a block sequence. -/
def vadAuto (c : ℕ) : List Bool → ℕ
  | [] => c
  | q :: qs => if q then vadAuto (c + 1) qs else vadAuto 0 qs

/-- The latch automaton of local barge-in: whether the debounce counter,
starting from `c`, ever reaches `BARGE_IN_FRAMES_REQUIRED` over the
qualifying-flags of a block sequence. -/
def latchAuto (c : ℕ) : List Bool → Bool
  | [] => false
  | q :: qs =>
    if q then decide (BARGE_IN_FRAMES_REQUIRED ≤ c + 1) || latchAuto (c + 1) qs
    else latchAuto 0 qs

/-- The fade parameters the interrupt branch will use on a state whose
current chunk is `chunk`: `(fade_total_samples, fade_done_samples)` —
freshly computed at fade start (lines 135-139), stored values otherwise. -/
def fadeParams (fadeLen : ℕ) (s : YuiState) (chunk : AudioFrame) : ℕ × ℕ :=
  (if s.fading then s.fade_total_samples
   else min fadeLen (chunk.samples.length - s.chunk_position),
   if s.fading then s.fade_done_samples else 0)

/-- The interrupt fully resolves within this render callback: either no
frame is in flight (immediate flush), or the fade-out reaches
`fade_total_samples` inside a buffer of `outLen` samples. -/
def interruptResolvesNow (fadeLen : ℕ) (s : YuiState) (outLen : ℕ) : Prop :=
  match s.current_audio_chunk with
  | none => True
  | some chunk =>
    (fadeParams fadeLen s chunk).1 ≤ (fadeParams fadeLen s chunk).2 + outLen

/-- A state from which the output scheduler can only emit silence until new
frames are enqueued: nothing in flight, empty queue, latch clear. -/
def silentSink (s : YuiState) : Prop :=
  s.current_audio_chunk = none ∧ s.output_queue = [] ∧ s.interrupt_event = false

/-- The playback-cursor invariant of claim C10: position `0` when no frame
is current, position within bounds when one is. -/
def cursorInv (s : YuiState) : Prop :=
  (s.current_audio_chunk = none → s.chunk_position = 0) ∧
  (∀ c, s.current_audio_chunk = some c → s.chunk_position ≤ c.samples.length)

/-- Strengthened render-side invariant used to prove `cursorInv` inductive:
an active fade implies the latch is set and a frame is in flight, and the
remaining fade never exceeds the remaining samples of that frame. -/
def schedInv (s : YuiState) : Prop :=
  cursorInv s ∧
  (s.fading = true → s.interrupt_event = true) ∧
  (s.fading = true → s.current_audio_chunk.isSome = true) ∧
  (∀ c, s.fading = true → s.current_audio_chunk = some c →
    s.fade_total_samples - s.fade_done_samples ≤
      c.samples.length - s.chunk_position)

/-! ## Capture side: barge-in detection (claims C1, C6, C7, C9) -/

theorem captureStep_queue (s : YuiState) (b : ℚ) :
    (captureStep s b).1.output_queue = s.output_queue := by
  cases hm : s.barge_in_mode <;> simp [captureStep, hm] <;> split_ifs <;> rfl

theorem captureStep_chunk (s : YuiState) (b : ℚ) :
    (captureStep s b).1.current_audio_chunk = s.current_audio_chunk := by
  cases hm : s.barge_in_mode <;> simp [captureStep, hm] <;> split_ifs <;> rfl

theorem captureStep_rms (s : YuiState) (b : ℚ) :
    (captureStep s b).1.recent_playback_rms = s.recent_playback_rms := by
  cases hm : s.barge_in_mode <;> simp [captureStep, hm] <;> split_ifs <;> rfl

theorem captureStep_mode (s : YuiState) (b : ℚ) :
    (captureStep s b).1.barge_in_mode = s.barge_in_mode := by
  cases hm : s.barge_in_mode <;> simp [captureStep, hm] <;> split_ifs <;> rfl

theorem captureStep_playing (s : YuiState) (b : ℚ) :
    assistant_playing ((captureStep s b).1) = assistant_playing s := by
  simp [assistant_playing, captureStep_queue, captureStep_chunk]

theorem captureStep_guard (s : YuiState) (b : ℚ) :
    playback_guard ((captureStep s b).1) = playback_guard s := by
  simp [playback_guard, captureStep_rms]

theorem captureStep_latch_not_cleared (s : YuiState) (b : ℚ)
    (h : (captureStep s b).1.interrupt_event = false) :
    s.interrupt_event = false := by
  revert h
  cases hm : s.barge_in_mode <;> simp [captureStep, hm] <;> split_ifs <;>
    simp_all


theorem captureStep_rms_playing (s : YuiState) (b : ℚ)
    (hm : s.barge_in_mode = .rms) (hp : assistant_playing s = true) :
    captureStep s b =
      (if playback_guard s ≤ b then
        (if BARGE_IN_FRAMES_REQUIRED ≤ s.vad_active_frames + 1 then
          ({ s with vad_active_frames := s.vad_active_frames + 1,
                    interrupt_event := true }, true)
         else
          ({ s with vad_active_frames := s.vad_active_frames + 1 }, false))
       else ({ s with vad_active_frames := 0 }, false)) := by
  simp [captureStep, hm, hp]

theorem captureRun_char (g : ℚ) (bs : List ℚ) : ∀ s : YuiState,
    s.barge_in_mode = .rms → assistant_playing s = true →
    playback_guard s = g →
    (captureRun s bs).1.interrupt_event
        = (s.interrupt_event ||
            latchAuto s.vad_active_frames (bs.map fun b => decide (g ≤ b)))
    ∧ (captureRun s bs).1.vad_active_frames
        = vadAuto s.vad_active_frames (bs.map fun b => decide (g ≤ b)) := by
  induction bs with
  | nil => intro s hm hp hg; simp [captureRun, latchAuto, vadAuto]
  | cons b bs ih =>
    intro s hm hp hg
    simp only [captureRun, List.map_cons]
    by_cases hq : g ≤ b
    · by_cases hv : BARGE_IN_FRAMES_REQUIRED ≤ s.vad_active_frames + 1
      · have hstep : captureStep s b =
            ({ s with vad_active_frames := s.vad_active_frames + 1,
                      interrupt_event := true }, true) := by
          rw [captureStep_rms_playing s b hm hp, if_pos (hg ▸ hq), if_pos hv]
        have hih := ih ({ s with vad_active_frames := s.vad_active_frames + 1,
                                 interrupt_event := true })
          (by simpa using hm) (by simpa [assistant_playing] using hp)
          (by simpa [playback_guard] using hg)
        rw [hstep]
        dsimp only
        rw [hih.1, hih.2]
        simp [latchAuto, vadAuto, hq, hv]
      · have hstep : captureStep s b =
            ({ s with vad_active_frames := s.vad_active_frames + 1 }, false) := by
          rw [captureStep_rms_playing s b hm hp, if_pos (hg ▸ hq), if_neg hv]
        have hih := ih ({ s with vad_active_frames := s.vad_active_frames + 1 })
          (by simpa using hm) (by simpa [assistant_playing] using hp)
          (by simpa [playback_guard] using hg)
        rw [hstep]
        dsimp only
        rw [hih.1, hih.2]
        simp [latchAuto, vadAuto, hq, hv]
    · have hstep : captureStep s b = ({ s with vad_active_frames := 0 }, false) := by
        rw [captureStep_rms_playing s b hm hp, if_neg (hg ▸ hq)]
      have hih := ih ({ s with vad_active_frames := 0 })
        (by simpa using hm) (by simpa [assistant_playing] using hp)
        (by simpa [playback_guard] using hg)
      rw [hstep]
      dsimp only
      rw [hih.1, hih.2]
      simp [latchAuto, vadAuto, hq]

theorem replicate_getElem_lt {α : Type} (a : α) : ∀ (n i : ℕ), i < n →
    (List.replicate n a)[i]? = some a := by
  intro n
  induction n with
  | zero => intro i h; omega
  | succ n ih =>
    intro i h
    cases i with
    | zero => simp [List.replicate_succ]
    | succ i => simpa [List.replicate_succ] using ih i (by omega)

theorem hasRun_of_replicate_lt (c : ℕ) (hc : c < BARGE_IN_FRAMES_REQUIRED) :
    ¬ hasConsecutiveRun BARGE_IN_FRAMES_REQUIRED (List.replicate c true) := by
  rintro ⟨i, h⟩
  have h3 := h (BARGE_IN_FRAMES_REQUIRED - 1) (by simp [BARGE_IN_FRAMES_REQUIRED])
  rw [List.getElem?_eq_none (by simp [List.length_replicate]; omega)] at h3
  exact Option.noConfusion h3

theorem hasRun_false_middle (c : ℕ) (hc : c < BARGE_IN_FRAMES_REQUIRED)
    (qs : List Bool) :
    hasConsecutiveRun BARGE_IN_FRAMES_REQUIRED
        (List.replicate c true ++ false :: qs)
      ↔ hasConsecutiveRun BARGE_IN_FRAMES_REQUIRED qs := by
  constructor
  · rintro ⟨i, h⟩
    by_cases hi : i ≤ c
    · exfalso
      have hj := h (c - i) (by simp [BARGE_IN_FRAMES_REQUIRED] at hc ⊢; omega)
      rw [show i + (c - i) = c by omega] at hj
      rw [List.getElem?_append_right (by simp [List.length_replicate])] at hj
      simp [List.length_replicate] at hj
    · refine ⟨i - c - 1, fun j hj => ?_⟩
      have hjj := h j hj
      rw [List.getElem?_append_right
        (by simp [List.length_replicate]; omega)] at hjj
      rw [show i + j - (List.replicate c true).length = (i - c - 1 + j) + 1 by
        simp [List.length_replicate]; omega] at hjj
      rwa [List.getElem?_cons_succ] at hjj
  · rintro ⟨i, h⟩
    refine ⟨c + 1 + i, fun j hj => ?_⟩
    rw [List.getElem?_append_right (by simp [List.length_replicate]; omega)]
    rw [show c + 1 + i + j - (List.replicate c true).length = (i + j) + 1 by
      simp [List.length_replicate]; omega]
    rw [List.getElem?_cons_succ]
    exact h j hj

theorem replicate_true_cons (c : ℕ) (qs : List Bool) :
    List.replicate c true ++ true :: qs = List.replicate (c + 1) true ++ qs := by
  rw [List.replicate_succ', List.append_assoc, List.singleton_append]

theorem latchAuto_iff (qs : List Bool) : ∀ c, c < BARGE_IN_FRAMES_REQUIRED →
    (latchAuto c qs = true ↔
      hasConsecutiveRun BARGE_IN_FRAMES_REQUIRED (List.replicate c true ++ qs)) := by
  induction qs with
  | nil =>
    intro c hc
    simp only [latchAuto, List.append_nil]
    constructor
    · intro h; exact absurd h (by simp)
    · intro h; exact absurd h (hasRun_of_replicate_lt c hc)
  | cons q qs ih =>
    intro c hc
    cases q
    · have hla : latchAuto c (false :: qs) = latchAuto 0 qs := by simp [latchAuto]
      rw [hla, ih 0 (by simp [BARGE_IN_FRAMES_REQUIRED])]
      simpa using (hasRun_false_middle c hc qs).symm
    · have hla : latchAuto c (true :: qs)
          = (decide (BARGE_IN_FRAMES_REQUIRED ≤ c + 1) || latchAuto (c + 1) qs) := by
        simp [latchAuto]
      rw [hla]
      by_cases hv : BARGE_IN_FRAMES_REQUIRED ≤ c + 1
      · rw [decide_eq_true hv]
        simp only [Bool.true_or]
        constructor
        · intro _
          rw [replicate_true_cons]
          refine ⟨0, fun j hj => ?_⟩
          rw [Nat.zero_add, List.getElem?_append]
          rw [if_pos (show j < (List.replicate (c + 1) true).length by
            simp [List.length_replicate]
            omega)]
          exact replicate_getElem_lt true (c + 1) j (by omega)
        · intro _
          trivial
      · rw [decide_eq_false hv]
        simp only [Bool.false_or]
        rw [ih (c + 1) (by omega), replicate_true_cons]

/-- C1: in local (RMS) barge-in mode, while the assistant is audibly
active, starting from a fresh debounce state (counter 0, latch unset),
running the capture loop over any block sequence sets the InterruptLatch
if and only if the sequence contains `BARGE_IN_FRAMES_REQUIRED = 4`
consecutive blocks whose RMS is at or above the dynamic guard threshold;
in particular any non-qualifying block resets the run, so three qualifying
blocks followed by a non-qualifying one leave the latch unset. -/
theorem C1_barge_in_debounce (s : YuiState) (blocks : List ℚ)
    (hm : s.barge_in_mode = .rms) (hp : assistant_playing s = true)
    (hv : s.vad_active_frames = 0) (hl : s.interrupt_event = false) :
    ((captureRun s blocks).1.interrupt_event = true ↔
      hasConsecutiveRun BARGE_IN_FRAMES_REQUIRED
        (blocks.map fun b => decide (playback_guard s ≤ b))) := by
  have h := (captureRun_char (playback_guard s) blocks s hm hp rfl).1
  rw [h, hl, hv, Bool.false_or]
  have := latchAuto_iff (blocks.map fun b => decide (playback_guard s ≤ b)) 0
    (by simp [BARGE_IN_FRAMES_REQUIRED])
  simpa using this

/-- A frame used by concrete instances of the capture-side claims. -/
def frameC1 : AudioFrame := ⟨[1000, -1000, 500], "item-c1", 0⟩

/-- State of C1's concrete example: local mode, assistant audibly active,
`recent_playback_rms = 0` (so the guard is the base threshold 0.015),
fresh debounce state. -/
def stateC1 : YuiState :=
  { initialState .rms with current_audio_chunk := some frameC1 }

/-- Witness for C1, at the claim's concrete example: with
`recent_playback_rms = 0` (guard 0.015), three blocks at RMS 0.05 leave
the latch unset, and a fourth such block sets it. -/
theorem C1_barge_in_debounce_witness :
    (captureRun stateC1 (List.replicate 3 (mkRat 1 20))).1.interrupt_event = false
    ∧ (captureRun stateC1 (List.replicate 4 (mkRat 1 20))).1.interrupt_event
        = true := by
  constructor
  · decide
  · exact (C1_barge_in_debounce stateC1 (List.replicate 4 (mkRat 1 20))
      rfl rfl rfl rfl).mpr ⟨0, by decide⟩

/-- C6: in local mode while the assistant is audibly active, the dynamic
guard threshold is `max(ENERGY_THRESHOLD, recent_playback_rms *
ECHO_SUPPRESS_MULTIPLIER)`; a block at or above the guard increments the
barge-in counter, a block below it does not (it resets the counter to 0,
leaves the latch untouched and is not forwarded); with
`recent_playback_rms = 0.02` the guard is `max(0.015, 0.036) = 0.036`,
which lies strictly above a 0.03-RMS block that itself lies strictly
above the base threshold. -/
theorem C6_echo_guard_scaling (s : YuiState) (micRms : ℚ)
    (hm : s.barge_in_mode = .rms) (hp : assistant_playing s = true) :
    playback_guard s
        = max ENERGY_THRESHOLD (s.recent_playback_rms * ECHO_SUPPRESS_MULTIPLIER)
    ∧ (playback_guard s ≤ micRms →
        (captureStep s micRms).1.vad_active_frames = s.vad_active_frames + 1)
    ∧ (micRms < playback_guard s →
        (captureStep s micRms).1.vad_active_frames = 0
        ∧ (captureStep s micRms).1.interrupt_event = s.interrupt_event
        ∧ (captureStep s micRms).2 = false)
    ∧ (s.recent_playback_rms = mkRat 1 50 →
        playback_guard s = mkRat 9 250
        ∧ ENERGY_THRESHOLD < mkRat 3 100 ∧ (mkRat 3 100 : ℚ) < mkRat 9 250) := by
  refine ⟨?_, ?_, ?_, ?_⟩
  · rw [playback_guard, ratMax, max_def]
  · intro hq
    rw [captureStep_rms_playing s micRms hm hp, if_pos hq]
    by_cases hv : BARGE_IN_FRAMES_REQUIRED ≤ s.vad_active_frames + 1
    · rw [if_pos hv]
    · rw [if_neg hv]
  · intro hq
    rw [captureStep_rms_playing s micRms hm hp, if_neg (not_le.mpr hq)]
    exact ⟨rfl, rfl, rfl⟩
  · intro hr
    refine ⟨?_, by decide, by decide⟩
    rw [playback_guard, hr]
    decide

/-- State for C6's witness: local mode, assistant audibly active,
`recent_playback_rms = 0.02`. -/
def stateC6 : YuiState :=
  { initialState .rms with current_audio_chunk := some frameC1,
                           recent_playback_rms := mkRat 1 50 }

/-- Witness for C6: with `recent_playback_rms = 0.02` the guard is 0.036,
and a 0.03-RMS block (above the base threshold) resets the counter to 0,
leaves the latch untouched and is not forwarded. -/
theorem C6_echo_guard_scaling_witness :
    playback_guard stateC6 = mkRat 9 250
    ∧ (captureStep stateC6 (mkRat 3 100)).1.vad_active_frames = 0
    ∧ (captureStep stateC6 (mkRat 3 100)).2 = false := by
  have h := C6_echo_guard_scaling stateC6 (mkRat 3 100) rfl rfl
  have hbelow := h.2.2.1 (by decide)
  exact ⟨(h.2.2.2 rfl).1, hbelow.1, hbelow.2.2⟩

/-- State exhibiting C7's failure: local mode, assistant not playing
(empty queue, no current chunk), but a non-zero `recent_playback_rms`. -/
def stateC7 : YuiState :=
  { initialState .rms with recent_playback_rms := mkRat 1 2,
                           vad_active_frames := 2 }

/-- Counterexample to C7: in a state where the assistant is not currently
playing audio, a capture step resets the active-frame counter but does NOT
reset the `recent_playback_rms` EMA to zero — the capture loop (lines
319-341) never writes `recent_playback_rms`, so the claim's "both … reset
to zero" is false on the code. -/
theorem C7_counterexample :
    assistant_playing stateC7 = false
    ∧ (captureStep stateC7 0).1.vad_active_frames = 0
    ∧ ¬ (captureStep stateC7 0).1.recent_playback_rms = 0 := by
  refine ⟨rfl, rfl, ?_⟩
  intro h
  exact absurd h (by decide)

/-- C7 as amended: whenever the assistant is not currently playing audio
(queue empty and no current frame) or server-mode barge-in is selected,
the capture step resets the active-frame counter to zero, while the
`recent_playback_rms` EMA is left unchanged by the capture side (it is
only ever written by the render callback); both fields start at zero in
`__init__`. -/
theorem C7_echo_guard_reset_amended (s : YuiState) (micRms : ℚ) (m : BargeInMode)
    (h : s.barge_in_mode = .server ∨ assistant_playing s = false) :
    (captureStep s micRms).1.vad_active_frames = 0
    ∧ (captureStep s micRms).1.recent_playback_rms = s.recent_playback_rms
    ∧ (initialState m).vad_active_frames = 0
    ∧ (initialState m).recent_playback_rms = 0 := by
  refine ⟨?_, captureStep_rms s micRms, rfl, rfl⟩
  rcases h with h | h
  · simp [captureStep, h]
  · cases hm : s.barge_in_mode
    · simp [captureStep, hm]
    · simp [captureStep, hm, h]

/-- Witness for the amended C7, at the concrete not-playing state. -/
theorem C7_echo_guard_reset_amended_witness :
    (captureStep stateC7 0).1.vad_active_frames = 0
    ∧ (captureStep stateC7 0).1.recent_playback_rms = mkRat 1 2 := by
  have h := C7_echo_guard_reset_amended stateC7 0 .rms (Or.inr rfl)
  exact ⟨h.1, h.2.1⟩

theorem captureRun_sent (g : ℚ) (bs : List ℚ) : ∀ s : YuiState,
    s.barge_in_mode = .rms → assistant_playing s = true →
    playback_guard s = g →
    ∀ k, k < bs.length →
    (captureRun s bs).2[k]?
      = some (decide (BARGE_IN_FRAMES_REQUIRED ≤
          vadAuto s.vad_active_frames
            ((bs.take (k + 1)).map fun b => decide (g ≤ b)))) := by
  induction bs with
  | nil => intro s _ _ _ k hk; simp at hk
  | cons b bs ih =>
    intro s hm hp hg k hk
    by_cases hq : g ≤ b
    · by_cases hv : BARGE_IN_FRAMES_REQUIRED ≤ s.vad_active_frames + 1
      · have hstep : captureStep s b =
            ({ s with vad_active_frames := s.vad_active_frames + 1,
                      interrupt_event := true }, true) := by
          rw [captureStep_rms_playing s b hm hp, if_pos (hg ▸ hq), if_pos hv]
        cases k with
        | zero =>
          simp only [captureRun, hstep]
          simp [vadAuto, hq, hv]
        | succ k =>
          simp only [captureRun, hstep]
          have hihs := ih ({ s with vad_active_frames := s.vad_active_frames + 1,
                                    interrupt_event := true })
            (by simpa using hm) (by simpa [assistant_playing] using hp)
            (by simpa [playback_guard] using hg) k (by simpa using hk)
          simp only [List.getElem?_cons_succ]
          rw [hihs]
          simp [vadAuto, hq]
      · have hstep : captureStep s b =
            ({ s with vad_active_frames := s.vad_active_frames + 1 }, false) := by
          rw [captureStep_rms_playing s b hm hp, if_pos (hg ▸ hq), if_neg hv]
        cases k with
        | zero =>
          simp only [captureRun, hstep]
          simp [vadAuto, hq, hv]
        | succ k =>
          simp only [captureRun, hstep]
          have hihs := ih ({ s with vad_active_frames := s.vad_active_frames + 1 })
            (by simpa using hm) (by simpa [assistant_playing] using hp)
            (by simpa [playback_guard] using hg) k (by simpa using hk)
          simp only [List.getElem?_cons_succ]
          rw [hihs]
          simp [vadAuto, hq]
    · have hstep : captureStep s b = ({ s with vad_active_frames := 0 }, false) := by
        rw [captureStep_rms_playing s b hm hp, if_neg (hg ▸ hq)]
      cases k with
      | zero =>
        simp only [captureRun, hstep]
        simp [vadAuto, hq, BARGE_IN_FRAMES_REQUIRED]
      | succ k =>
        simp only [captureRun, hstep]
        have hihs := ih ({ s with vad_active_frames := 0 })
          (by simpa using hm) (by simpa [assistant_playing] using hp)
          (by simpa [playback_guard] using hg) k (by simpa using hk)
        simp only [List.getElem?_cons_succ]
        rw [hihs]
        simp [vadAuto, hq]

/-- C9: in local mode while the assistant is audibly active, a capture
block is forwarded to the session if and only if, after processing that
block, the consecutive-qualifying counter is at or above
`BARGE_IN_FRAMES_REQUIRED` — i.e. exactly the block that triggers barge-in
detection and the blocks thereafter while the counter stays at or above the
requirement are sent; earlier sub-threshold blocks and qualifying blocks
from before the counter reached the requirement are never sent. -/
theorem C9_trigger_block_forwarding (s : YuiState) (blocks : List ℚ)
    (hm : s.barge_in_mode = .rms) (hp : assistant_playing s = true) :
    ∀ k, k < blocks.length →
      ((captureRun s blocks).2[k]? = some true ↔
        BARGE_IN_FRAMES_REQUIRED ≤
          (captureRun s (blocks.take (k + 1))).1.vad_active_frames) := by
  intro k hk
  rw [captureRun_sent (playback_guard s) blocks s hm hp rfl k hk]
  rw [(captureRun_char (playback_guard s) (blocks.take (k + 1)) s hm hp rfl).2]
  simp

/-- Witness for C9: at the concrete C1 state, four 0.05-RMS blocks: the
fourth block (index 3) is forwarded, the first (index 0) is not. -/
theorem C9_trigger_block_forwarding_witness :
    (captureRun stateC1 (List.replicate 4 (mkRat 1 20))).2[3]? = some true
    ∧ ¬ (captureRun stateC1 (List.replicate 4 (mkRat 1 20))).2[0]? = some true := by
  constructor
  · exact (C9_trigger_block_forwarding stateC1 (List.replicate 4 (mkRat 1 20))
      rfl rfl 3 (by decide)).mpr (by decide)
  · decide

/-! ## Inbound event dispatcher (claim C8) -/

/-- The frame enqueued by an event, if any. -/
def eventFrame : SessionEvent → Option AudioFrame
  | .audio f => some f
  | _ => none

/-- Whether an event is a server-declared interruption. -/
def isInterruptedEvent : SessionEvent → Bool
  | .audio_interrupted => true
  | _ => false

theorem onEvent_queue (s : YuiState) (e : SessionEvent) :
    (onEvent s e).output_queue = s.output_queue ++ (eventFrame e).toList := by
  cases e <;> simp [onEvent, eventFrame]

theorem onEvent_latch (s : YuiState) (e : SessionEvent) :
    (onEvent s e).interrupt_event = (s.interrupt_event || isInterruptedEvent e) := by
  cases e <;> simp [onEvent, isInterruptedEvent]

theorem dispatchEvents_queue (es : List SessionEvent) : ∀ s : YuiState,
    (dispatchEvents s es).output_queue
      = s.output_queue ++ es.filterMap eventFrame := by
  induction es with
  | nil => intro s; simp [dispatchEvents]
  | cons e es ih =>
    intro s
    simp only [dispatchEvents, List.foldl_cons] at *
    rw [ih (onEvent s e), onEvent_queue]
    cases e <;> simp [eventFrame]

theorem dispatchEvents_latch (es : List SessionEvent) : ∀ s : YuiState,
    (dispatchEvents s es).interrupt_event
      = (s.interrupt_event || es.any isInterruptedEvent) := by
  induction es with
  | nil => intro s; simp [dispatchEvents]
  | cons e es ih =>
    intro s
    simp only [dispatchEvents, List.foldl_cons] at *
    rw [ih (onEvent s e), onEvent_latch]
    simp [Bool.or_assoc]

/-- C8: an exception raised while handling one inbound event is caught and
does not stop the dispatch loop — handling a failing event leaves the state
unchanged, so a five-event sequence whose third event's handler fails
produces exactly the state of processing events 1, 2, 4, 5 in arrival
order; the jitter buffer then holds exactly the frames of the processed
audio events, appended in order (none duplicated or skipped), the latch is
set exactly when some processed event was `audio_interrupted`, and each
event kind performs its specified single side effect. -/
theorem C8_dispatcher_resilience (s : YuiState) (e1 e2 e4 e5 : SessionEvent) :
    dispatchEvents s [e1, e2, .malformed_audio, e4, e5]
        = dispatchEvents s [e1, e2, e4, e5]
    ∧ (dispatchEvents s [e1, e2, .malformed_audio, e4, e5]).output_queue
        = s.output_queue ++ [e1, e2, e4, e5].filterMap eventFrame
    ∧ (dispatchEvents s [e1, e2, .malformed_audio, e4, e5]).interrupt_event
        = (s.interrupt_event || [e1, e2, e4, e5].any isInterruptedEvent)
    ∧ (∀ f, onEvent s (.audio f)
        = { s with output_queue := s.output_queue ++ [f] })
    ∧ onEvent s .audio_interrupted
        = { s with prebuffering := true, interrupt_event := true }
    ∧ onEvent s .malformed_audio = s := by
  have hskip : dispatchEvents s [e1, e2, .malformed_audio, e4, e5]
      = dispatchEvents s [e1, e2, e4, e5] := by
    simp [dispatchEvents, onEvent]
  refine ⟨hskip, ?_, ?_, fun f => rfl, rfl, rfl⟩
  · rw [hskip, dispatchEvents_queue]
  · rw [hskip, dispatchEvents_latch]

/-- Witness for C8: a concrete five-event sequence (audio, lifecycle,
failing audio decode, audio, interruption) enqueues exactly the two frames
of the surviving audio events in order and sets the latch. -/
theorem C8_dispatcher_resilience_witness :
    (dispatchEvents (initialState .rms)
        [.audio frameC1, .agent_start, .malformed_audio, .audio frameC1,
          .audio_interrupted]).output_queue = [frameC1, frameC1]
    ∧ (dispatchEvents (initialState .rms)
        [.audio frameC1, .agent_start, .malformed_audio, .audio frameC1,
          .audio_interrupted]).interrupt_event = true := by
  have h := C8_dispatcher_resilience (initialState .rms)
    (.audio frameC1) .agent_start (.audio frameC1) .audio_interrupted
  exact ⟨h.2.1.trans (by simp [initialState, eventFrame]),
         h.2.2.1.trans (by simp [initialState, isInterruptedEvent])⟩

/-! ## Render side: output scheduler (claims C2, C3, C4, C5, C10) -/

theorem fadeRamp_length (samples : List Int) (total pos d0 n : ℕ) :
    (fadeRamp samples total pos d0 n).length = n := by
  simp [fadeRamp]

theorem fadeLoop_eq (rmsOf : List Int → ℚ) (samples : List Int)
    (total outLen pos done : ℕ) (rms : ℚ) :
    fadeLoop rmsOf samples total outLen 0 pos done rms
      = (fadeRamp samples total pos done (min outLen (total - done)),
         pos + min outLen (total - done),
         done + min outLen (total - done),
         if min outLen (total - done) = 0 then rms
         else emaUpdate rms
           (rmsOf (fadeRamp samples total pos done (min outLen (total - done))))) := by
  by_cases h : 0 < outLen ∧ done < total
  · rw [fadeLoop, dif_pos (by omega : (0:ℕ) < outLen ∧ done < total)]
    simp only [Nat.sub_zero, Nat.zero_add]
    rw [fadeLoop, dif_neg (by omega)]
    rw [if_neg (by omega)]
    simp
  · rw [fadeLoop, dif_neg (by omega)]
    have hm : min outLen (total - done) = 0 := by omega
    rw [hm, if_pos rfl]
    simp [fadeRamp]

theorem outputCallback_interrupt_none (rmsOf : List Int → ℚ) (fadeLen : ℕ)
    (s : YuiState) (outLen : ℕ)
    (hI : s.interrupt_event = true) (hC : s.current_audio_chunk = none) :
    outputCallback rmsOf fadeLen s outLen =
      (List.replicate outLen 0,
       { s with output_queue := [], prebuffering := true,
                interrupt_event := false }) := by
  simp [outputCallback, hI, hC]

theorem outputCallback_interrupt_some (rmsOf : List Int → ℚ) (fadeLen : ℕ)
    (s : YuiState) (outLen : ℕ) (chunk : AudioFrame)
    (hI : s.interrupt_event = true) (hC : s.current_audio_chunk = some chunk) :
    outputCallback rmsOf fadeLen s outLen =
      (fadeRamp chunk.samples (fadeParams fadeLen s chunk).1 s.chunk_position
          (fadeParams fadeLen s chunk).2
          (min outLen ((fadeParams fadeLen s chunk).1 - (fadeParams fadeLen s chunk).2))
        ++ List.replicate
            (outLen - min outLen
              ((fadeParams fadeLen s chunk).1 - (fadeParams fadeLen s chunk).2)) 0,
       if (fadeParams fadeLen s chunk).1 ≤ (fadeParams fadeLen s chunk).2 +
            min outLen ((fadeParams fadeLen s chunk).1 - (fadeParams fadeLen s chunk).2)
       then
        { s with current_audio_chunk := none, chunk_position := 0,
                 output_queue := [], fading := false, prebuffering := true,
                 interrupt_event := false,
                 fade_total_samples := (fadeParams fadeLen s chunk).1,
                 fade_done_samples := (fadeParams fadeLen s chunk).2 +
                   min outLen
                     ((fadeParams fadeLen s chunk).1 - (fadeParams fadeLen s chunk).2),
                 recent_playback_rms :=
                   if min outLen ((fadeParams fadeLen s chunk).1 -
                       (fadeParams fadeLen s chunk).2) = 0 then s.recent_playback_rms
                   else emaUpdate s.recent_playback_rms
                     (rmsOf (fadeRamp chunk.samples (fadeParams fadeLen s chunk).1
                       s.chunk_position (fadeParams fadeLen s chunk).2
                       (min outLen ((fadeParams fadeLen s chunk).1 -
                         (fadeParams fadeLen s chunk).2)))) }
       else
        { s with fading := true,
                 chunk_position := s.chunk_position +
                   min outLen
                     ((fadeParams fadeLen s chunk).1 - (fadeParams fadeLen s chunk).2),
                 fade_total_samples := (fadeParams fadeLen s chunk).1,
                 fade_done_samples := (fadeParams fadeLen s chunk).2 +
                   min outLen
                     ((fadeParams fadeLen s chunk).1 - (fadeParams fadeLen s chunk).2),
                 recent_playback_rms :=
                   if min outLen ((fadeParams fadeLen s chunk).1 -
                       (fadeParams fadeLen s chunk).2) = 0 then s.recent_playback_rms
                   else emaUpdate s.recent_playback_rms
                     (rmsOf (fadeRamp chunk.samples (fadeParams fadeLen s chunk).1
                       s.chunk_position (fadeParams fadeLen s chunk).2
                       (min outLen ((fadeParams fadeLen s chunk).1 -
                         (fadeParams fadeLen s chunk).2)))) }) := by
  simp only [outputCallback, hI, hC]
  rw [fadeLoop_eq]
  simp only [fadeParams, fadeRamp_length]
  split_ifs <;> rfl

theorem normalLoop_zero (rmsOf : List Int → ℚ) (s : YuiState) (outLen filled : ℕ) :
    normalLoop rmsOf 0 s outLen filled = ([], s) := rfl

theorem normalLoop_succ (rmsOf : List Int → ℚ) (fuel : ℕ) (s : YuiState)
    (outLen filled : ℕ) :
    normalLoop rmsOf (fuel + 1) s outLen filled =
      if filled < outLen then
        match s.current_audio_chunk with
        | none =>
          if s.prebuffering ∧ s.output_queue.length < s.prebuffer_target_chunks then
            ([], s)
          else
            match s.output_queue with
            | [] => ([], { s with prebuffering := false })
            | f :: rest =>
              normalLoop rmsOf fuel
                { s with prebuffering := false, current_audio_chunk := some f,
                         chunk_position := 0, output_queue := rest } outLen filled
        | some chunk =>
          if min (outLen - filled) (chunk.samples.length - s.chunk_position) = 0 then
            normalLoop rmsOf fuel s outLen filled
          else
            (((List.range (min (outLen - filled)
                  (chunk.samples.length - s.chunk_position))).map fun k =>
                chunk.samples.getD (s.chunk_position + k) 0)
              ++ (normalLoop rmsOf fuel
                  (if chunk.samples.length ≤ s.chunk_position +
                      min (outLen - filled) (chunk.samples.length - s.chunk_position)
                   then
                    { s with current_audio_chunk := none, chunk_position := 0,
                             recent_playback_rms := emaUpdate s.recent_playback_rms
                               (rmsOf ((List.range (min (outLen - filled)
                                   (chunk.samples.length - s.chunk_position))).map
                                 fun k => chunk.samples.getD (s.chunk_position + k) 0)) }
                   else
                    { s with chunk_position := (s.chunk_position +
                        min (outLen - filled) (chunk.samples.length - s.chunk_position)),
                             recent_playback_rms := emaUpdate s.recent_playback_rms
                               (rmsOf ((List.range (min (outLen - filled)
                                   (chunk.samples.length - s.chunk_position))).map
                                 fun k => chunk.samples.getD (s.chunk_position + k) 0)) })
                  outLen (filled + min (outLen - filled)
                    (chunk.samples.length - s.chunk_position))).1,
             (normalLoop rmsOf fuel
                  (if chunk.samples.length ≤ s.chunk_position +
                      min (outLen - filled) (chunk.samples.length - s.chunk_position)
                   then
                    { s with current_audio_chunk := none, chunk_position := 0,
                             recent_playback_rms := emaUpdate s.recent_playback_rms
                               (rmsOf ((List.range (min (outLen - filled)
                                   (chunk.samples.length - s.chunk_position))).map
                                 fun k => chunk.samples.getD (s.chunk_position + k) 0)) }
                   else
                    { s with chunk_position := (s.chunk_position +
                        min (outLen - filled) (chunk.samples.length - s.chunk_position)),
                             recent_playback_rms := emaUpdate s.recent_playback_rms
                               (rmsOf ((List.range (min (outLen - filled)
                                   (chunk.samples.length - s.chunk_position))).map
                                 fun k => chunk.samples.getD (s.chunk_position + k) 0)) })
                  outLen (filled + min (outLen - filled)
                    (chunk.samples.length - s.chunk_position))).2)
      else ([], s) := by
  rfl

theorem normalLoop_stop (rmsOf : List Int → ℚ) (fuel : ℕ) (s : YuiState)
    (outLen filled : ℕ) (h : ¬ filled < outLen) :
    normalLoop rmsOf (fuel + 1) s outLen filled = ([], s) := by
  rw [normalLoop_succ, if_neg h]

theorem normalLoop_break (rmsOf : List Int → ℚ) (fuel : ℕ) (s : YuiState)
    (outLen filled : ℕ) (h : filled < outLen)
    (hc : s.current_audio_chunk = none)
    (hpq : s.prebuffering = true ∧
      s.output_queue.length < s.prebuffer_target_chunks) :
    normalLoop rmsOf (fuel + 1) s outLen filled = ([], s) := by
  rw [normalLoop_succ, if_pos h, hc]
  dsimp only
  rw [if_pos hpq]

theorem normalLoop_empty (rmsOf : List Int → ℚ) (fuel : ℕ) (s : YuiState)
    (outLen filled : ℕ) (h : filled < outLen)
    (hc : s.current_audio_chunk = none)
    (hpq : ¬ (s.prebuffering = true ∧
      s.output_queue.length < s.prebuffer_target_chunks))
    (hq : s.output_queue = []) :
    normalLoop rmsOf (fuel + 1) s outLen filled =
      ([], { s with prebuffering := false }) := by
  rw [normalLoop_succ, if_pos h, hc]
  dsimp only
  rw [if_neg hpq, hq]

theorem normalLoop_dequeue (rmsOf : List Int → ℚ) (fuel : ℕ) (s : YuiState)
    (outLen filled : ℕ) (f : AudioFrame) (rest : List AudioFrame)
    (h : filled < outLen)
    (hc : s.current_audio_chunk = none)
    (hpq : ¬ (s.prebuffering = true ∧
      s.output_queue.length < s.prebuffer_target_chunks))
    (hq : s.output_queue = f :: rest) :
    normalLoop rmsOf (fuel + 1) s outLen filled =
      normalLoop rmsOf fuel
        { s with prebuffering := false, current_audio_chunk := some f,
                 chunk_position := 0, output_queue := rest } outLen filled := by
  rw [normalLoop_succ, if_pos h, hc]
  dsimp only
  rw [if_neg hpq, hq]

theorem normalLoop_spin (rmsOf : List Int → ℚ) (fuel : ℕ) (s : YuiState)
    (outLen filled : ℕ) (chunk : AudioFrame)
    (h : filled < outLen)
    (hc : s.current_audio_chunk = some chunk)
    (hn : min (outLen - filled) (chunk.samples.length - s.chunk_position) = 0) :
    normalLoop rmsOf (fuel + 1) s outLen filled =
      normalLoop rmsOf fuel s outLen filled := by
  rw [normalLoop_succ, if_pos h, hc]
  dsimp only
  rw [if_pos hn]

theorem normalLoop_copy (rmsOf : List Int → ℚ) (fuel : ℕ) (s : YuiState)
    (outLen filled : ℕ) (chunk : AudioFrame)
    (h : filled < outLen)
    (hc : s.current_audio_chunk = some chunk)
    (hn : ¬ min (outLen - filled) (chunk.samples.length - s.chunk_position) = 0) :
    normalLoop rmsOf (fuel + 1) s outLen filled =
      (((List.range (min (outLen - filled)
            (chunk.samples.length - s.chunk_position))).map fun k =>
          chunk.samples.getD (s.chunk_position + k) 0)
        ++ (normalLoop rmsOf fuel
            (if chunk.samples.length ≤ s.chunk_position +
                min (outLen - filled) (chunk.samples.length - s.chunk_position)
             then
              { s with current_audio_chunk := none, chunk_position := 0,
                       recent_playback_rms := emaUpdate s.recent_playback_rms
                         (rmsOf ((List.range (min (outLen - filled)
                             (chunk.samples.length - s.chunk_position))).map
                           fun k => chunk.samples.getD (s.chunk_position + k) 0)) }
             else
              { s with chunk_position := (s.chunk_position +
                  min (outLen - filled) (chunk.samples.length - s.chunk_position)),
                       recent_playback_rms := emaUpdate s.recent_playback_rms
                         (rmsOf ((List.range (min (outLen - filled)
                             (chunk.samples.length - s.chunk_position))).map
                           fun k => chunk.samples.getD (s.chunk_position + k) 0)) })
            outLen (filled + min (outLen - filled)
              (chunk.samples.length - s.chunk_position))).1,
       (normalLoop rmsOf fuel
            (if chunk.samples.length ≤ s.chunk_position +
                min (outLen - filled) (chunk.samples.length - s.chunk_position)
             then
              { s with current_audio_chunk := none, chunk_position := 0,
                       recent_playback_rms := emaUpdate s.recent_playback_rms
                         (rmsOf ((List.range (min (outLen - filled)
                             (chunk.samples.length - s.chunk_position))).map
                           fun k => chunk.samples.getD (s.chunk_position + k) 0)) }
             else
              { s with chunk_position := (s.chunk_position +
                  min (outLen - filled) (chunk.samples.length - s.chunk_position)),
                       recent_playback_rms := emaUpdate s.recent_playback_rms
                         (rmsOf ((List.range (min (outLen - filled)
                             (chunk.samples.length - s.chunk_position))).map
                           fun k => chunk.samples.getD (s.chunk_position + k) 0)) })
            outLen (filled + min (outLen - filled)
              (chunk.samples.length - s.chunk_position))).2) := by
  rw [normalLoop_succ, if_pos h, hc]
  dsimp only
  rw [if_neg hn]

theorem normalLoop_state (rmsOf : List Int → ℚ) :
    ∀ (fuel : ℕ) (s : YuiState) (outLen filled : ℕ),
    ((normalLoop rmsOf fuel s outLen filled).2.interrupt_event
        = s.interrupt_event)
    ∧ ((normalLoop rmsOf fuel s outLen filled).2.fading = s.fading)
    ∧ ((normalLoop rmsOf fuel s outLen filled).2.fade_total_samples
        = s.fade_total_samples)
    ∧ ((normalLoop rmsOf fuel s outLen filled).2.fade_done_samples
        = s.fade_done_samples)
    ∧ ((normalLoop rmsOf fuel s outLen filled).2.prebuffer_target_chunks
        = s.prebuffer_target_chunks)
    ∧ ((normalLoop rmsOf fuel s outLen filled).2.barge_in_mode
        = s.barge_in_mode)
    ∧ ((normalLoop rmsOf fuel s outLen filled).2.vad_active_frames
        = s.vad_active_frames)
    ∧ ((normalLoop rmsOf fuel s outLen filled).2.prebuffering = true →
        s.prebuffering = true)
    ∧ ((s.prebuffering = true → s.current_audio_chunk = none) →
        (normalLoop rmsOf fuel s outLen filled).2.prebuffering = true →
        (normalLoop rmsOf fuel s outLen filled).2.current_audio_chunk = none)
    ∧ (cursorInv s → cursorInv (normalLoop rmsOf fuel s outLen filled).2) := by
  intro fuel
  induction fuel with
  | zero =>
    intro s outLen filled
    rw [normalLoop_zero]
    exact ⟨rfl, rfl, rfl, rfl, rfl, rfl, rfl, fun h => h,
      fun hpre hp => hpre hp, fun h => h⟩
  | succ fuel ih =>
    intro s outLen filled
    by_cases hf : filled < outLen
    · by_cases hcn : s.current_audio_chunk = none
      · by_cases hpq : s.prebuffering = true ∧
            s.output_queue.length < s.prebuffer_target_chunks
        · rw [normalLoop_break rmsOf fuel s outLen filled hf hcn hpq]
          exact ⟨rfl, rfl, rfl, rfl, rfl, rfl, rfl, fun h => h,
            fun hpre hp => hpre hp, fun h => h⟩
        · rcases hq : s.output_queue with - | ⟨f, rest⟩
          · rw [normalLoop_empty rmsOf fuel s outLen filled hf hcn hpq hq]
            refine ⟨rfl, rfl, rfl, rfl, rfl, rfl, rfl, ?_, ?_, fun h => h⟩
            · intro h; exact absurd h (by simp)
            · intro _ h; exact absurd h (by simp)
          · rw [normalLoop_dequeue rmsOf fuel s outLen filled f rest hf hcn hpq hq]
            have h1 := ih
              { s with prebuffering := false,
                       current_audio_chunk := some f, chunk_position := 0,
                       output_queue := rest }
              outLen filled
            refine ⟨h1.1, h1.2.1, h1.2.2.1, h1.2.2.2.1, h1.2.2.2.2.1,
              h1.2.2.2.2.2.1, h1.2.2.2.2.2.2.1, ?_, ?_, ?_⟩
            · intro h
              exact absurd (h1.2.2.2.2.2.2.2.1 h) (by simp)
            · intro _ h
              exact h1.2.2.2.2.2.2.2.2.1 (fun hp => absurd hp (by simp)) h
            · intro _
              refine h1.2.2.2.2.2.2.2.2.2 ⟨fun h => absurd h (by simp),
                fun c hcc => ?_⟩
              have hfc : some f = some c := hcc
              cases hfc
              exact Nat.zero_le _
      · obtain ⟨chunk, hc⟩ := Option.ne_none_iff_exists'.mp hcn
        by_cases hn : min (outLen - filled)
            (chunk.samples.length - s.chunk_position) = 0
        · rw [normalLoop_spin rmsOf fuel s outLen filled chunk hf hc hn]
          exact ih s outLen filled
        · rw [normalLoop_copy rmsOf fuel s outLen filled chunk hf hc hn]
          by_cases hend : chunk.samples.length ≤ s.chunk_position +
              min (outLen - filled) (chunk.samples.length - s.chunk_position)
          · rw [if_pos hend]
            have h1 := ih
              { s with current_audio_chunk := none,
                       chunk_position := 0,
                       recent_playback_rms := emaUpdate s.recent_playback_rms
                         (rmsOf ((List.range (min (outLen - filled)
                             (chunk.samples.length - s.chunk_position))).map
                           fun k => chunk.samples.getD (s.chunk_position + k) 0)) }
              outLen (filled + min (outLen - filled)
                (chunk.samples.length - s.chunk_position))
            refine ⟨h1.1, h1.2.1, h1.2.2.1, h1.2.2.2.1, h1.2.2.2.2.1,
              h1.2.2.2.2.2.1, h1.2.2.2.2.2.2.1, h1.2.2.2.2.2.2.2.1, ?_, ?_⟩
            · intro _ h
              exact h1.2.2.2.2.2.2.2.2.1 (fun _ => rfl) h
            · intro _
              exact h1.2.2.2.2.2.2.2.2.2 ⟨fun _ => rfl,
                fun c hcc => Option.noConfusion hcc⟩
          · rw [if_neg hend]
            have h1 := ih
              { s with chunk_position := (s.chunk_position +
                         min (outLen - filled)
                           (chunk.samples.length - s.chunk_position)),
                       recent_playback_rms := emaUpdate s.recent_playback_rms
                         (rmsOf ((List.range (min (outLen - filled)
                             (chunk.samples.length - s.chunk_position))).map
                           fun k => chunk.samples.getD (s.chunk_position + k) 0)) }
              outLen (filled + min (outLen - filled)
                (chunk.samples.length - s.chunk_position))
            refine ⟨h1.1, h1.2.1, h1.2.2.1, h1.2.2.2.1, h1.2.2.2.2.1,
              h1.2.2.2.2.2.1, h1.2.2.2.2.2.2.1, h1.2.2.2.2.2.2.2.1, ?_, ?_⟩
            · intro hpre h
              refine h1.2.2.2.2.2.2.2.2.1 (fun hp => ?_) h
              have h2 := hpre hp
              rw [hc] at h2
              exact Option.noConfusion h2
            · intro _
              refine h1.2.2.2.2.2.2.2.2.2 ⟨fun h => ?_, fun c hcc => ?_⟩
              · have h2 : s.current_audio_chunk = none := h
                rw [hc] at h2
                exact Option.noConfusion h2
              · have hcc2 : s.current_audio_chunk = some c := hcc
                rw [hc] at hcc2
                cases hcc2
                show s.chunk_position + min (outLen - filled)
                  (chunk.samples.length - s.chunk_position) ≤ chunk.samples.length
                omega
    · rw [normalLoop_stop rmsOf fuel s outLen filled hf]
      exact ⟨rfl, rfl, rfl, rfl, rfl, rfl, rfl, fun h => h,
        fun hpre hp => hpre hp, fun h => h⟩

theorem outputCallback_prebuffer_silent (rmsOf : List Int → ℚ) (fadeLen : ℕ)
    (s : YuiState) (outLen : ℕ)
    (hl : s.interrupt_event = false) (hp : s.prebuffering = true)
    (hc : s.current_audio_chunk = none)
    (hq : s.output_queue.length < s.prebuffer_target_chunks) :
    outputCallback rmsOf fadeLen s outLen = (List.replicate outLen 0, s) := by
  simp only [outputCallback, hl, Bool.false_eq_true, if_false]
  by_cases ho : 0 < outLen
  · rw [show outLen + s.output_queue.length + 2
        = (outLen + s.output_queue.length + 1) + 1 from rfl]
    rw [normalLoop_break rmsOf _ s outLen 0 ho hc ⟨hp, hq⟩]
    simp
  · have h0 : outLen = 0 := by omega
    subst h0
    have hfuel : 0 + s.output_queue.length + 2
        = (0 + s.output_queue.length + 1) + 1 := rfl
    rw [hfuel, normalLoop_stop rmsOf _ s 0 0 (by omega)]
    simp

theorem queueRender_inv_aux (rmsOf : List Int → ℚ) (ops : List EngineOp) :
    ∀ s : YuiState,
    (∀ op ∈ ops, isQueueOrRenderOp op = true) →
    s.interrupt_event = false →
    (s.prebuffering = true → s.current_audio_chunk = none) →
    (runOps rmsOf s ops).interrupt_event = false
    ∧ ((runOps rmsOf s ops).prebuffering = true →
        (runOps rmsOf s ops).current_audio_chunk = none)
    ∧ (runOps rmsOf s ops).prebuffer_target_chunks = s.prebuffer_target_chunks := by
  induction ops with
  | nil => intro s _ h1 h2; exact ⟨h1, h2, rfl⟩
  | cons op ops ih =>
    intro s hall h1 h2
    have hop : isQueueOrRenderOp op = true := hall op (by simp)
    have hstep : (applyOp rmsOf s op).interrupt_event = false
        ∧ ((applyOp rmsOf s op).prebuffering = true →
            (applyOp rmsOf s op).current_audio_chunk = none)
        ∧ (applyOp rmsOf s op).prebuffer_target_chunks
            = s.prebuffer_target_chunks := by
      cases op with
      | render outLen =>
        simp only [applyOp, outputCallback, h1, Bool.false_eq_true, if_false]
        have hns := normalLoop_state rmsOf
          (outLen + s.output_queue.length + 2) s outLen 0
        exact ⟨hns.1.trans h1, hns.2.2.2.2.2.2.2.2.1 h2, hns.2.2.2.2.1⟩
      | inbound e =>
        cases e
        case audio f => exact ⟨h1, fun hp => h2 hp, rfl⟩
        case audio_interrupted => exact absurd hop (by simp [isQueueOrRenderOp])
        all_goals exact ⟨h1, fun hp => h2 hp, rfl⟩
      | capture r => exact absurd hop (by simp [isQueueOrRenderOp])
    have hrest := ih (applyOp rmsOf s op) (fun o ho => hall o (by simp [ho]))
      hstep.1 hstep.2.1
    exact ⟨hrest.1, hrest.2.1, hrest.2.2.trans hstep.2.2⟩

/-- C2: in the closed system driven by enqueued frames and render
callbacks (any interleaving, starting from `__init__`), whenever the
pre-buffering flag is set and fewer than `PREBUFFER_CHUNKS = 3` frames are
queued, the render callback writes an all-zero output buffer and leaves
the engine state unchanged — so feeding `N < 3` frames yields all-zero
output across any number of callback invocations. -/
theorem C2_prebuffer_silence (rmsOf : List Int → ℚ) (m : BargeInMode)
    (ops : List EngineOp) (outLen : ℕ)
    (hops : ∀ op ∈ ops, isQueueOrRenderOp op = true)
    (hp : (runOps rmsOf (initialState m) ops).prebuffering = true)
    (hq : (runOps rmsOf (initialState m) ops).output_queue.length
        < PREBUFFER_CHUNKS) :
    (outputCallback rmsOf fade_samples
        (runOps rmsOf (initialState m) ops) outLen).1
      = List.replicate outLen 0
    ∧ (outputCallback rmsOf fade_samples
        (runOps rmsOf (initialState m) ops) outLen).2
      = runOps rmsOf (initialState m) ops := by
  have hinv := queueRender_inv_aux rmsOf ops (initialState m) hops rfl
    (fun _ => rfl)
  have hsil := outputCallback_prebuffer_silent rmsOf fade_samples
    (runOps rmsOf (initialState m) ops) outLen hinv.1 hp (hinv.2.1 hp)
    (by rw [hinv.2.2]; exact hq)
  exact ⟨by rw [hsil], by rw [hsil]⟩

/-- Witness for C2: enqueue one frame (fewer than the target 3), run a
render callback of 4 samples: the output is all zeros and the engine state
is unchanged. -/
theorem C2_prebuffer_silence_witness :
    (outputCallback (fun _ => 0) fade_samples
        (runOps (fun _ => 0) (initialState .rms)
          [.inbound (.audio frameC1)]) 4).1
      = List.replicate 4 0 := by
  exact (C2_prebuffer_silence (fun _ => 0) .rms [.inbound (.audio frameC1)] 4
    (by intro op hop; rw [List.mem_singleton] at hop; subst hop; rfl)
    rfl (by decide)).1

/-- C3: when the interrupt branch runs with a frame in flight, the fade
total it uses (and stores) is computed once at fade start as
`min(fade_samples, remaining samples of the current frame)` — hence it
never exceeds the remaining samples of the current frame, for every
configured fade length (including one exceeding the frame remainder), and
once fading it is never recomputed; the configured length `fade_samples`
is 288 samples, i.e. 12 ms at 24 kHz. -/
theorem C3_fade_total_bound (rmsOf : List Int → ℚ) (fadeLen : ℕ)
    (s : YuiState) (chunk : AudioFrame) (outLen : ℕ)
    (hI : s.interrupt_event = true) (hC : s.current_audio_chunk = some chunk) :
    (s.fading = false →
        (outputCallback rmsOf fadeLen s outLen).2.fade_total_samples
          = min fadeLen (chunk.samples.length - s.chunk_position)
        ∧ (outputCallback rmsOf fadeLen s outLen).2.fade_total_samples
            ≤ chunk.samples.length - s.chunk_position)
    ∧ (s.fading = true →
        (outputCallback rmsOf fadeLen s outLen).2.fade_total_samples
          = s.fade_total_samples)
    ∧ fade_samples = 288
    ∧ fade_samples = SAMPLE_RATE * FADE_OUT_MS / 1000 := by
  have hT : (outputCallback rmsOf fadeLen s outLen).2.fade_total_samples
      = (fadeParams fadeLen s chunk).1 := by
    rw [outputCallback_interrupt_some rmsOf fadeLen s outLen chunk hI hC]
    split_ifs <;> rfl
  refine ⟨?_, ?_, rfl, rfl⟩
  · intro hfad
    rw [hT]
    constructor
    · simp [fadeParams, hfad]
    · simp only [fadeParams, hfad, Bool.false_eq_true, if_false]
      exact Nat.min_le_right _ _
  · intro hfad
    rw [hT]
    simp [fadeParams, hfad]

/-- Frame used by the render-side concrete instances: six samples of
value 1200. -/
def frameC3 : AudioFrame := ⟨List.replicate 6 1200, "item-c3", 1⟩

/-- State for C3/C4/C5 concrete instances: latch set mid-playback, the
current frame at position 2 (4 samples remaining), fade not yet started. -/
def stateC3 : YuiState :=
  { initialState .rms with
      interrupt_event := true,
      current_audio_chunk := some frameC3,
      chunk_position := 2 }

/-- Witness for C3: at the concrete state (6-sample frame at position 2,
configured fade 288), the stored fade total is `min 288 4 = 4 ≤ 4`. -/
theorem C3_fade_total_bound_witness :
    (outputCallback (fun _ => 0) fade_samples stateC3 8).2.fade_total_samples
        = min fade_samples (frameC3.samples.length - stateC3.chunk_position)
    ∧ (outputCallback (fun _ => 0) fade_samples stateC3 8).2.fade_total_samples
        ≤ frameC3.samples.length - stateC3.chunk_position := by
  exact (C3_fade_total_bound (fun _ => 0) fade_samples stateC3 frameC3 8
    rfl rfl).1 rfl

/-- C5: with the latch set, the render callback clears it exactly when the
interrupt fully resolves in this invocation — immediately when no frame is
in flight, or when the fade-out reaches its total within this buffer — and
at that point the jitter buffer is empty, pre-buffering is re-armed, the
current frame is cleared (with the cursor reset to 0 whenever a frame had
been in flight); moreover neither the event dispatcher nor the capture
loop ever clears the latch, and a callback on an unlatched state leaves
the latch unset — so the latch is cleared only by the render callback at
these completion points. -/
theorem C5_interrupt_completion (rmsOf : List Int → ℚ) (fadeLen : ℕ)
    (s : YuiState) (outLen : ℕ) (e : SessionEvent) (b : ℚ) :
    (s.interrupt_event = true →
      (((outputCallback rmsOf fadeLen s outLen).2.interrupt_event = false)
        ↔ interruptResolvesNow fadeLen s outLen)
      ∧ (interruptResolvesNow fadeLen s outLen →
          (outputCallback rmsOf fadeLen s outLen).2.output_queue = []
          ∧ (outputCallback rmsOf fadeLen s outLen).2.prebuffering = true
          ∧ (outputCallback rmsOf fadeLen s outLen).2.current_audio_chunk = none
          ∧ (outputCallback rmsOf fadeLen s outLen).2.interrupt_event = false
          ∧ (s.current_audio_chunk ≠ none →
              (outputCallback rmsOf fadeLen s outLen).2.chunk_position = 0)))
    ∧ ((onEvent s e).interrupt_event = false → s.interrupt_event = false)
    ∧ ((captureStep s b).1.interrupt_event = false → s.interrupt_event = false)
    ∧ (s.interrupt_event = false →
        (outputCallback rmsOf fadeLen s outLen).2.interrupt_event = false) := by
  refine ⟨?_, ?_, ?_, ?_⟩
  · intro hI
    by_cases hcn : s.current_audio_chunk = none
    · rw [outputCallback_interrupt_none rmsOf fadeLen s outLen hI hcn]
      refine ⟨by simp [interruptResolvesNow, hcn], fun _ =>
        ⟨rfl, rfl, hcn, rfl, fun h => absurd hcn h⟩⟩
    · obtain ⟨chunk, hc⟩ := Option.ne_none_iff_exists'.mp hcn
      rw [outputCallback_interrupt_some rmsOf fadeLen s outLen chunk hI hc]
      have hres : interruptResolvesNow fadeLen s outLen ↔
          (fadeParams fadeLen s chunk).1
            ≤ (fadeParams fadeLen s chunk).2 + outLen := by
        simp [interruptResolvesNow, hc]
      by_cases hcomp : (fadeParams fadeLen s chunk).1
          ≤ (fadeParams fadeLen s chunk).2 +
            min outLen ((fadeParams fadeLen s chunk).1
              - (fadeParams fadeLen s chunk).2)
      · rw [if_pos hcomp]
        refine ⟨?_, fun _ => ⟨rfl, rfl, rfl, rfl, fun _ => rfl⟩⟩
        rw [hres]
        exact ⟨fun _ => by omega, fun _ => rfl⟩
      · rw [if_neg hcomp]
        constructor
        · rw [hres]
          constructor
          · intro hlf
            have hsl : s.interrupt_event = false := hlf
            rw [hI] at hsl
            exact absurd hsl (by simp)
          · intro hr
            exfalso
            omega
        · intro hr
          rw [hres] at hr
          exfalso
          omega
  · intro h
    rw [onEvent_latch] at h
    exact (Bool.or_eq_false_iff.mp h).1
  · exact captureStep_latch_not_cleared s b
  · intro h
    simp only [outputCallback, h, Bool.false_eq_true, if_false]
    exact (normalLoop_state rmsOf (outLen + s.output_queue.length + 2)
      s outLen 0).1.trans h

/-- Witness for C5: at the concrete mid-playback latched state (fade total
4, buffer 8), the interrupt resolves in one callback: queue flushed,
pre-buffering re-armed, frame cleared, latch cleared. -/
theorem C5_interrupt_completion_witness :
    (outputCallback (fun _ => 0) fade_samples stateC3 8).2.output_queue = []
    ∧ (outputCallback (fun _ => 0) fade_samples stateC3 8).2.prebuffering = true
    ∧ (outputCallback (fun _ => 0) fade_samples stateC3 8).2.current_audio_chunk
        = none
    ∧ (outputCallback (fun _ => 0) fade_samples stateC3 8).2.interrupt_event
        = false := by
  have h := (C5_interrupt_completion (fun _ => 0) fade_samples stateC3 8
    .unknown 0).1 rfl
  have hres : interruptResolvesNow fade_samples stateC3 8 := by
    simp only [interruptResolvesNow, stateC3, fadeParams, initialState, frameC3]
    simp
  have h2 := h.2 hres
  exact ⟨h2.1, h2.2.1, h2.2.2.1, h2.2.2.2.1⟩

theorem mkRat_hi : (mkRat 32767 1 : ℚ) = ((32767 : ℤ) : ℚ) := by
  rw [Rat.mkRat_eq_div]
  norm_num

theorem mkRat_lo : (mkRat (-32768) 1 : ℚ) = ((-32768 : ℤ) : ℚ) := by
  rw [Rat.mkRat_eq_div]
  norm_num

theorem clip16_bounds (q : ℚ) : -32768 ≤ clip16 q ∧ clip16 q ≤ 32767 := by
  unfold clip16 ratTrunc
  by_cases h1 : q ≤ mkRat (-32768) 1
  · rw [if_pos h1, mkRat_lo, if_neg (by norm_num), Int.ceil_intCast]
    norm_num
  · rw [if_neg h1]
    by_cases h2 : mkRat 32767 1 ≤ q
    · rw [if_pos h2, mkRat_hi, if_pos (by norm_num), Int.floor_intCast]
      norm_num
    · rw [if_neg h2]
      rw [mkRat_lo] at h1
      rw [mkRat_hi] at h2
      push_neg at h1 h2
      by_cases h0 : 0 ≤ q
      · rw [if_pos h0]
        constructor
        · have : (0 : ℤ) ≤ ⌊q⌋ := Int.floor_nonneg.mpr h0
          omega
        · have := Int.floor_le_floor h2.le
          rwa [Int.floor_intCast] at this
      · rw [if_neg h0]
        push_neg at h0
        constructor
        · have := Int.ceil_le_ceil h1.le
          rwa [Int.ceil_intCast] at this
        · have : ⌈q⌉ ≤ (0 : ℤ) := Int.ceil_le.mpr (by exact_mod_cast h0.le)
          omega

theorem fadeRamp_getElem (samples : List Int) (total pos d0 n k : ℕ)
    (hk : k < n) :
    (fadeRamp samples total pos d0 n)[k]?
      = some (fadedSample (samples.getD (pos + k) 0) total (d0 + k)) := by
  simp [fadeRamp, List.getElem?_map, List.getElem?_range hk]

theorem silentSink_step (rmsOf : List Int → ℚ) (fadeLen : ℕ) (s2 : YuiState)
    (h : silentSink s2) (L : ℕ) :
    (outputCallback rmsOf fadeLen s2 L).1 = List.replicate L 0
    ∧ silentSink (outputCallback rmsOf fadeLen s2 L).2 := by
  obtain ⟨hc, hq, hl⟩ := h
  simp only [outputCallback, hl, Bool.false_eq_true, if_false]
  by_cases hL : 0 < L
  · by_cases hpb : s2.prebuffering = true ∧
        s2.output_queue.length < s2.prebuffer_target_chunks
    · rw [show L + s2.output_queue.length + 2
          = (L + s2.output_queue.length + 1) + 1 from rfl,
        normalLoop_break rmsOf _ s2 L 0 hL hc hpb]
      exact ⟨by simp, hc, hq, hl⟩
    · rw [show L + s2.output_queue.length + 2
          = (L + s2.output_queue.length + 1) + 1 from rfl,
        normalLoop_empty rmsOf _ s2 L 0 hL hc hpb hq]
      exact ⟨by simp, hc, hq, hl⟩
  · have h0 : L = 0 := by omega
    subst h0
    rw [show 0 + s2.output_queue.length + 2
        = (0 + s2.output_queue.length + 1) + 1 from rfl,
      normalLoop_stop rmsOf _ s2 0 0 (by omega)]
    exact ⟨by simp, hc, hq, hl⟩

/-- C4: once fade-out starts with total `T = min(fade_samples, remaining)`,
the emitted samples carry gain `1 - k/T` at fade offset `k` (clipped to the
16-bit range), the gain is strictly decreasing in the offset and reaches 0
at offset `T`, the buffer beyond the fade is silence, a fade continuing
across callbacks resumes at the stored global offset, and once the fade
completes (within a buffer of at least `T` samples here) the engine is in
a silent state in which every further callback emits an all-zero buffer
until new frames are enqueued. -/
theorem C4_fade_monotonicity (rmsOf : List Int → ℚ) (fadeLen : ℕ)
    (s : YuiState) (chunk : AudioFrame) (outLen : ℕ)
    (hI : s.interrupt_event = true) (hC : s.current_audio_chunk = some chunk)
    (hF : s.fading = false) :
    (∀ k, k < min outLen (min fadeLen (chunk.samples.length - s.chunk_position)) →
        (outputCallback rmsOf fadeLen s outLen).1[k]?
          = some (fadedSample (chunk.samples.getD (s.chunk_position + k) 0)
              (min fadeLen (chunk.samples.length - s.chunk_position)) k))
    ∧ (∀ k, min outLen (min fadeLen (chunk.samples.length - s.chunk_position)) ≤ k →
        k < outLen → (outputCallback rmsOf fadeLen s outLen).1[k]? = some 0)
    ∧ (∀ T j k : ℕ, j < k → k ≤ T → fadeGain T k < fadeGain T j)
    ∧ (∀ T : ℕ, 0 < T → fadeGain T T = 0 ∧ fadeGain T 0 = 1)
    ∧ (∀ (src : Int) (T k : ℕ),
        fadedSample src T k = clip16 ((src : ℚ) * (1 - (k : ℚ) / (T : ℚ))))
    ∧ (∀ q : ℚ, -32768 ≤ clip16 q ∧ clip16 q ≤ 32767)
    ∧ (min fadeLen (chunk.samples.length - s.chunk_position) ≤ outLen →
        silentSink (outputCallback rmsOf fadeLen s outLen).2)
    ∧ (∀ s2 : YuiState, silentSink s2 → ∀ L : ℕ,
        (outputCallback rmsOf fadeLen s2 L).1 = List.replicate L 0
        ∧ silentSink (outputCallback rmsOf fadeLen s2 L).2)
    ∧ (∀ (s2 : YuiState) (chunk2 : AudioFrame),
        s2.interrupt_event = true → s2.current_audio_chunk = some chunk2 →
        s2.fading = true →
        ∀ k, k < min outLen (s2.fade_total_samples - s2.fade_done_samples) →
          (outputCallback rmsOf fadeLen s2 outLen).1[k]?
            = some (fadedSample (chunk2.samples.getD (s2.chunk_position + k) 0)
                s2.fade_total_samples (s2.fade_done_samples + k))) := by
  have hTd : (fadeParams fadeLen s chunk).1
      = min fadeLen (chunk.samples.length - s.chunk_position) := by
    simp [fadeParams, hF]
  have hDd : (fadeParams fadeLen s chunk).2 = 0 := by
    simp [fadeParams, hF]
  refine ⟨?_, ?_, ?_, ?_, ?_, clip16_bounds, ?_, silentSink_step rmsOf fadeLen, ?_⟩
  · intro k hk
    rw [outputCallback_interrupt_some rmsOf fadeLen s outLen chunk hI hC]
    simp only [hTd, hDd, Nat.sub_zero]
    rw [List.getElem?_append, if_pos (by rw [fadeRamp_length]; omega)]
    rw [fadeRamp_getElem _ _ _ _ _ _ (by omega)]
    rw [Nat.zero_add]
  · intro k hk1 hk2
    rw [outputCallback_interrupt_some rmsOf fadeLen s outLen chunk hI hC]
    simp only [hTd, hDd, Nat.sub_zero]
    rw [List.getElem?_append_right (by rw [fadeRamp_length]; omega)]
    rw [fadeRamp_length]
    exact replicate_getElem_lt 0 _ _ (by omega)
  · intro T j k hjk hkT
    have hT : 0 < T := by omega
    simp only [fadeGain, Rat.mkRat_eq_div]
    have hTq : (0 : ℚ) < (T : ℚ) := by exact_mod_cast hT
    have hjkq : ((j : ℤ) : ℚ) < ((k : ℤ) : ℚ) := by exact_mod_cast hjk
    have hdiv : ((j : ℤ) : ℚ) / (T : ℚ) < ((k : ℤ) : ℚ) / (T : ℚ) := by
      exact div_lt_div_of_pos_right hjkq hTq
    linarith
  · intro T hT
    have hTq : ((T : ℚ)) ≠ 0 := by exact_mod_cast hT.ne'
    constructor
    · simp [fadeGain, Rat.mkRat_eq_div, div_self hTq]
    · simp [fadeGain, Rat.mkRat_eq_div]
  · intro src T k
    simp only [fadedSample, fadeGain, Rat.mkRat_eq_div]
    norm_num
  · intro hTle
    rw [outputCallback_interrupt_some rmsOf fadeLen s outLen chunk hI hC]
    rw [if_pos (by rw [hTd, hDd]; omega)]
    exact ⟨rfl, rfl, rfl⟩
  · intro s2 chunk2 h1 h2 h3 k hk
    rw [outputCallback_interrupt_some rmsOf fadeLen s2 outLen chunk2 h1 h2]
    have hT2 : (fadeParams fadeLen s2 chunk2).1 = s2.fade_total_samples := by
      simp [fadeParams, h3]
    have hD2 : (fadeParams fadeLen s2 chunk2).2 = s2.fade_done_samples := by
      simp [fadeParams, h3]
    simp only [hT2, hD2]
    rw [List.getElem?_append, if_pos (by rw [fadeRamp_length]; omega)]
    exact fadeRamp_getElem _ _ _ _ _ _ (by omega)

/-- Witness for C4: at the concrete mid-playback latched state the fade of
4 samples completes within the 8-sample buffer, leaving a silent state
whose next callback emits an all-zero buffer. -/
theorem C4_fade_monotonicity_witness :
    silentSink (outputCallback (fun _ => 0) fade_samples stateC3 8).2
    ∧ (outputCallback (fun _ => 0) fade_samples
        (outputCallback (fun _ => 0) fade_samples stateC3 8).2 8).1
      = List.replicate 8 0 := by
  have h := C4_fade_monotonicity (fun _ => 0) fade_samples stateC3 frameC3 8
    rfl rfl rfl
  have hsink := h.2.2.2.2.2.2.1 (by simp [frameC3, stateC3, initialState])
  exact ⟨hsink, (h.2.2.2.2.2.2.2.1 _ hsink 8).1⟩

theorem captureStep_pos (s : YuiState) (b : ℚ) :
    (captureStep s b).1.chunk_position = s.chunk_position := by
  cases hm : s.barge_in_mode <;> simp [captureStep, hm] <;> split_ifs <;> rfl

theorem captureStep_fading (s : YuiState) (b : ℚ) :
    (captureStep s b).1.fading = s.fading := by
  cases hm : s.barge_in_mode <;> simp [captureStep, hm] <;> split_ifs <;> rfl

theorem captureStep_fade_total (s : YuiState) (b : ℚ) :
    (captureStep s b).1.fade_total_samples = s.fade_total_samples := by
  cases hm : s.barge_in_mode <;> simp [captureStep, hm] <;> split_ifs <;> rfl

theorem captureStep_fade_done (s : YuiState) (b : ℚ) :
    (captureStep s b).1.fade_done_samples = s.fade_done_samples := by
  cases hm : s.barge_in_mode <;> simp [captureStep, hm] <;> split_ifs <;> rfl

theorem captureStep_latch_mono (s : YuiState) (b : ℚ)
    (h : s.interrupt_event = true) :
    (captureStep s b).1.interrupt_event = true := by
  cases hres : (captureStep s b).1.interrupt_event
  · rw [captureStep_latch_not_cleared s b hres] at h
    exact absurd h (by simp)
  · rfl

theorem schedInv_step (rmsOf : List Int → ℚ) (s : YuiState) (op : EngineOp)
    (h : schedInv s) : schedInv (applyOp rmsOf s op) := by
  obtain ⟨⟨hc0, hcb⟩, hfl, hfc, hfr⟩ := h
  cases op with
  | inbound e =>
    simp only [applyOp]
    cases e
    case audio_interrupted => exact ⟨⟨hc0, hcb⟩, fun _ => rfl, hfc, hfr⟩
    all_goals exact ⟨⟨hc0, hcb⟩, hfl, hfc, hfr⟩
  | capture b =>
    simp only [applyOp]
    refine ⟨⟨?_, ?_⟩, ?_, ?_, ?_⟩
    · intro hch
      rw [captureStep_chunk] at hch
      rw [captureStep_pos]
      exact hc0 hch
    · intro c hcc
      rw [captureStep_chunk] at hcc
      rw [captureStep_pos]
      exact hcb c hcc
    · intro hft
      rw [captureStep_fading] at hft
      exact captureStep_latch_mono s b (hfl hft)
    · intro hft
      rw [captureStep_fading] at hft
      rw [captureStep_chunk]
      exact hfc hft
    · intro c hft hcc
      rw [captureStep_fading] at hft
      rw [captureStep_chunk] at hcc
      rw [captureStep_fade_total, captureStep_fade_done, captureStep_pos]
      exact hfr c hft hcc
  | render outLen =>
    simp only [applyOp]
    by_cases hl : s.interrupt_event = true
    · by_cases hcn : s.current_audio_chunk = none
      · rw [outputCallback_interrupt_none rmsOf fade_samples s outLen hl hcn]
        refine ⟨⟨fun _ => hc0 hcn, ?_⟩, ?_, ?_, ?_⟩
        · intro c hcc
          have hcc2 : s.current_audio_chunk = some c := hcc
          rw [hcn] at hcc2
          exact Option.noConfusion hcc2
        · intro hft
          have hft2 : s.fading = true := hft
          have := hfc hft2
          rw [hcn] at this
          exact absurd this (by simp)
        · intro hft
          have hft2 : s.fading = true := hft
          have := hfc hft2
          rw [hcn] at this
          exact absurd this (by simp)
        · intro c hft hcc
          have hft2 : s.fading = true := hft
          have := hfc hft2
          rw [hcn] at this
          exact absurd this (by simp)
      · obtain ⟨chunk, hc⟩ := Option.ne_none_iff_exists'.mp hcn
        rw [outputCallback_interrupt_some rmsOf fade_samples s outLen chunk hl hc]
        have hTd : (fadeParams fade_samples s chunk).1
              - (fadeParams fade_samples s chunk).2
            ≤ chunk.samples.length - s.chunk_position := by
          by_cases hfad : s.fading = true
          · simp only [fadeParams, hfad, if_true]
            exact hfr chunk hfad hc
          · have hfad2 : s.fading = false := by
              cases hsf : s.fading
              · rfl
              · exact absurd hsf hfad
            simp only [fadeParams, hfad2, Bool.false_eq_true, if_false]
            omega
        have hposb : s.chunk_position ≤ chunk.samples.length := hcb chunk hc
        by_cases hcomp : (fadeParams fade_samples s chunk).1
            ≤ (fadeParams fade_samples s chunk).2 +
              min outLen ((fadeParams fade_samples s chunk).1
                - (fadeParams fade_samples s chunk).2)
        · rw [if_pos hcomp]
          refine ⟨⟨fun _ => rfl, fun c hcc => Option.noConfusion hcc⟩,
            ?_, ?_, ?_⟩
          · intro hft; exact absurd hft (by simp)
          · intro hft; exact absurd hft (by simp)
          · intro c hft; exact absurd hft (by simp)
        · rw [if_neg hcomp]
          refine ⟨⟨?_, ?_⟩, fun _ => hl, ?_, ?_⟩
          · intro hch
            have hch2 : s.current_audio_chunk = none := hch
            rw [hc] at hch2
            exact Option.noConfusion hch2
          · intro c hcc
            have hcc2 : s.current_audio_chunk = some c := hcc
            rw [hc] at hcc2
            cases hcc2
            show s.chunk_position +
                min outLen ((fadeParams fade_samples s chunk).1
                  - (fadeParams fade_samples s chunk).2)
              ≤ chunk.samples.length
            omega
          · intro _
            show s.current_audio_chunk.isSome = true
            rw [hc]
            rfl
          · intro c hft hcc
            have hcc2 : s.current_audio_chunk = some c := hcc
            rw [hc] at hcc2
            cases hcc2
            show (fadeParams fade_samples s chunk).1 -
                ((fadeParams fade_samples s chunk).2 +
                  min outLen ((fadeParams fade_samples s chunk).1
                    - (fadeParams fade_samples s chunk).2))
              ≤ chunk.samples.length - (s.chunk_position +
                  min outLen ((fadeParams fade_samples s chunk).1
                    - (fadeParams fade_samples s chunk).2))
            omega
    · have hlf : s.interrupt_event = false := by
        cases hsl : s.interrupt_event
        · rfl
        · exact absurd hsl hl
      simp only [outputCallback, hlf, Bool.false_eq_true, if_false]
      have hns := normalLoop_state rmsOf (outLen + s.output_queue.length + 2)
        s outLen 0
      have hcur := hns.2.2.2.2.2.2.2.2.2 ⟨hc0, hcb⟩
      have hfad : (normalLoop rmsOf (outLen + s.output_queue.length + 2)
          s outLen 0).2.fading = s.fading := hns.2.1
      refine ⟨hcur, ?_, ?_, ?_⟩
      · intro hft
        rw [hfad] at hft
        rw [hfl hft] at hlf
        exact absurd hlf (by simp)
      · intro hft
        rw [hfad] at hft
        rw [hfl hft] at hlf
        exact absurd hlf (by simp)
      · intro c hft
        rw [hfad] at hft
        rw [hfl hft] at hlf
        exact absurd hlf (by simp)

theorem schedInv_runOps (rmsOf : List Int → ℚ) (ops : List EngineOp) :
    ∀ s : YuiState, schedInv s → schedInv (runOps rmsOf s ops) := by
  induction ops with
  | nil => intro s h; exact h
  | cons op ops ih =>
    intro s h
    exact ih (applyOp rmsOf s op) (schedInv_step rmsOf s op h)

theorem schedInv_initial (m : BargeInMode) : schedInv (initialState m) := by
  refine ⟨⟨fun _ => rfl, fun c hcc => Option.noConfusion hcc⟩, ?_, ?_, ?_⟩
  · intro hft; exact absurd hft (by simp [initialState])
  · intro hft; exact absurd hft (by simp [initialState])
  · intro c hft; exact absurd hft (by simp [initialState])

/-- C10: at every point observable between engine steps (render callbacks,
inbound events, capture blocks, from `__init__` under any interleaving),
the output scheduler holds exactly zero or one current frame, and whenever
a frame is present the cursor satisfies `position ≤ length(frame.samples)`;
when no frame is present the position is 0 (it is reset on clearing or
dequeuing a frame). -/
theorem C10_cursor_invariant (rmsOf : List Int → ℚ) (m : BargeInMode)
    (ops : List EngineOp) :
    cursorInv (runOps rmsOf (initialState m) ops)
    ∧ ((runOps rmsOf (initialState m) ops).current_audio_chunk = none
        ∨ ∃ c, (runOps rmsOf (initialState m) ops).current_audio_chunk = some c
            ∧ (runOps rmsOf (initialState m) ops).chunk_position
                ≤ c.samples.length) := by
  have hinv := schedInv_runOps rmsOf ops (initialState m) (schedInv_initial m)
  refine ⟨hinv.1, ?_⟩
  cases hcc : (runOps rmsOf (initialState m) ops).current_audio_chunk with
  | none => exact Or.inl rfl
  | some c => exact Or.inr ⟨c, rfl, hinv.1.2 c hcc⟩

/-- Witness for C10: after enqueuing a frame, three renders (entering
playback), a capture block and an interruption event, the cursor invariant
holds at the resulting concrete state. -/
theorem C10_cursor_invariant_witness :
    cursorInv (runOps (fun _ => 0) (initialState .rms)
      [.inbound (.audio frameC1), .inbound (.audio frameC1),
       .inbound (.audio frameC1), .render 2, .capture (mkRat 1 20),
       .inbound .audio_interrupted, .render 2]) := by
  exact (C10_cursor_invariant (fun _ => 0) .rms
    [.inbound (.audio frameC1), .inbound (.audio frameC1),
     .inbound (.audio frameC1), .render 2, .capture (mkRat 1 20),
     .inbound .audio_interrupted, .render 2]).1
